import Mathlib

/-!
# Verification of the `dimacs` DIMACS-CNF reader

Shallow embedding of the Go package `dimacs` (files `dimacs.go`,
`dimacs_test.go`).  The input stream handed to `bufio.Scanner` is modelled
as the list of its lines (`List String`) together with an optional stream
error reported after the last line, mirroring `scanner.Err()`.  Go `int`
values are modelled as unbounded `Int` (no overflow is exercised by the
package), and Go `error` values as `String` error messages carried in
`Except String`.
-/

namespace Dimacs

/-- Go `unicode.IsSpace` restricted to the Latin-1 range, which is the set
of whitespace characters relevant to this development (characters above
Latin-1 that Go also treats as space are not modelled). -/
def goIsSpace (c : Char) : Bool :=
  c = ' ' || c = '\t' || c = '\n' || c = '\x0b' || c = '\x0c' || c = '\r' ||
  c = '\x85' || c = '\xa0'

/-- Character-list core of Go `strings.TrimSpace`: drop leading and
trailing whitespace. -/
def trimChars (cs : List Char) : List Char :=
  ((cs.dropWhile goIsSpace).reverse.dropWhile goIsSpace).reverse

/-- Go `strings.TrimSpace`. -/
def TrimSpace (s : String) : String := ⟨trimChars s.data⟩

/-- Character-list core of Go `strings.Fields`: split around runs of
whitespace.  `acc` holds the characters of the current field, reversed. -/
def fieldsChars : List Char → List Char → List (List Char)
  | [], acc => if acc.isEmpty then [] else [acc.reverse]
  | c :: rest, acc =>
    if goIsSpace c then
      if acc.isEmpty then fieldsChars rest []
      else acc.reverse :: fieldsChars rest []
    else fieldsChars rest (c :: acc)

/-- Go `strings.Fields`. -/
def Fields (s : String) : List String := (fieldsChars s.data []).map String.mk

/-- Numeric value of a list of decimal digit characters. -/
def digitsToNat (ds : List Char) : Nat :=
  ds.foldl (fun n c => 10 * n + (c.toNat - 48)) 0

/-- Go `%q`-style quoting of a string in an error message (escaping of
special characters inside the string is not modelled). -/
def quoted (s : String) : String := "\"" ++ s ++ "\""

/-- Go `strconv.Atoi`: an optional sign followed by at least one decimal
digit.  Go's range check on the platform `int` is not modelled (values are
unbounded `Int`). -/
def Atoi (str : String) : Except String Int :=
  let errMsg := "strconv.Atoi: parsing " ++ quoted str ++ ": invalid syntax"
  match str.data with
  | [] => .error errMsg
  | c :: rest =>
    let p : Bool × List Char :=
      if c = '-' then (true, rest)
      else if c = '+' then (false, rest)
      else (false, c :: rest)
    if p.2.isEmpty then .error errMsg
    else if p.2.all Char.isDigit then
      .ok (if p.1 then -(digitsToNat p.2 : Int) else (digitsToNat p.2 : Int))
    else .error errMsg

/-- A CNF formula: `dimacs.CNFFormula`. -/
structure CNFFormula where
  NumVars : Int
  Clauses : List (List Int)
deriving DecidableEq, Repr

/-- The `dimacs.Builder` interface: three operations invoked by the
scanner, each either transforming the consumer state or returning an
error. -/
structure Builder (σ : Type) where
  Problem : σ → String → Int → Int → Except String σ
  Clause : σ → List Int → Except String σ
  Comment : σ → String → Except String σ

/-- The clause-token loop of `ReadBuilder`'s default branch: parse each
field as an integer, stop at a trailing `0`, reject a `0` before the final
token, reject a non-integer token.  `acc` is the content of `clauseBuf`. -/
def scanLits (line : String) : List String → List Int → Except String (List Int)
  | [], acc => .ok acc
  | t :: rest, acc =>
    match Atoi t with
    | .error e => .error ("invalid literal in clause " ++ quoted line ++ ": " ++ e)
    | .ok l =>
      if l = 0 then
        if rest.isEmpty then .ok acc
        else .error ("zero found before end of clause line: " ++ quoted line)
      else scanLits line rest (acc ++ [l])

/-- The `case 'p'` branch of `ReadBuilder`: split the line into fields,
require exactly 4, parse the two counts, invoke `Problem`. -/
def handleProblem (ops : Builder σ) (s : σ) (line : String) : Except String σ :=
  match Fields line with
  | [_, tag, vs, cs] =>
    match Atoi vs with
    | .error e => .error ("invalid number of variables: " ++ e)
    | .ok v =>
      match Atoi cs with
      | .error e => .error ("invalid number of clauses: " ++ e)
      | .ok c => ops.Problem s tag v c
  | parts =>
    .error ("problem line should have 4 parts, got " ++ toString parts.length ++
      ": " ++ line)

/-- The `default` branch of `ReadBuilder`: scan the literal tokens and
invoke `Clause` with the accumulated buffer. -/
def handleClause (ops : Builder σ) (s : σ) (line : String) : Except String σ :=
  match scanLits line (Fields line) [] with
  | .error e => .error e
  | .ok lits => ops.Clause s lits

/-- One iteration of `ReadBuilder`'s scan loop on an already-trimmed line:
skip a blank line, dispatch on the first character. -/
def dispatch (ops : Builder σ) (s : σ) (line : String) : Except String σ :=
  match line.data.head? with
  | none => .ok s
  | some ch =>
    if ch = 'c' then ops.Comment s line
    else if ch = 'p' then handleProblem ops s line
    else handleClause ops s line

/-- One iteration of `ReadBuilder`'s scan loop on a raw line. -/
def processLine (ops : Builder σ) (s : σ) (raw : String) : Except String σ :=
  dispatch ops s (TrimSpace raw)

/-- The scan loop of `ReadBuilder`: process the lines in order, stopping
at the first error. -/
def runLines (ops : Builder σ) : σ → List String → Except String σ
  | s, [] => .ok s
  | s, l :: rest =>
    match processLine ops s l with
    | .error e => .error e
    | .ok s2 => runLines ops s2 rest

/-- `dimacs.ReadBuilder`: run the scan loop over the lines of the stream,
then report the stream error, if any, exactly as `scanner.Err()` does. -/
def ReadBuilder (ops : Builder σ) (s : σ) (lines : List String)
    (streamErr : Option String) : Except String σ :=
  match runLines ops s lines with
  | .error e => .error e
  | .ok s2 =>
    match streamErr with
    | some e => .error e
    | none => .ok s2

/-- State of `dimacs.cnfBuilder`: `none` models the nil `cnf` pointer, and
a populated state carries the formula together with the capacity of the
preallocated `Clauses` slice (the declared clause count). -/
abbrev CnfSt := Option (CNFFormula × Nat)

/-- `(*cnfBuilder).Problem`. -/
def cnfProblem (b : CnfSt) (p : String) (v : Int) (c : Int) : Except String CnfSt :=
  match b with
  | some _ => .error "duplicate problem line"
  | none =>
    if p ≠ "cnf" then .error ("expected \"cnf\" problem, got " ++ quoted p)
    else if v < 0 then
      .error ("number of variables must be non-negative, got: " ++ toString v)
    else if c < 0 then
      .error ("number of clauses must be non-negative, got: " ++ toString c)
    else .ok (some (⟨v, []⟩, c.toNat))

/-- `(*cnfBuilder).Clause`: reject when no problem line was seen, reject
when the preallocated capacity is exhausted, otherwise append a copy of
the buffer. -/
def cnfClause (b : CnfSt) (tmp : List Int) : Except String CnfSt :=
  match b with
  | none => .error "clause found before problem line"
  | some (f, cap) =>
    if f.Clauses.length = cap then
      .error ("too many clauses: expected " ++ toString f.Clauses.length)
    else .ok (some (⟨f.NumVars, f.Clauses ++ [tmp]⟩, cap))

/-- `dimacs.cnfBuilder` as a `Builder` over `CnfSt`; comments are
ignored. -/
def cnfBuilder : Builder CnfSt :=
  { Problem := cnfProblem
  , Clause := cnfClause
  , Comment := fun b _ => .ok b }

/-- `dimacs.ReadCNF`: run the scanner with the reference consumer, then
require a problem line to have been seen and the accumulated clause count
to have reached the declared count.  Returns the Go pair
`(CNFFormula, error)`: every error path carries the zero-value formula. -/
def ReadCNF (lines : List String) (streamErr : Option String) :
    CNFFormula × Option String :=
  match ReadBuilder cnfBuilder none lines streamErr with
  | .error e => (⟨0, []⟩, some e)
  | .ok none => (⟨0, []⟩, some "missing problem line found")
  | .ok (some (f, cap)) =>
    if f.Clauses.length < cap then
      (⟨0, []⟩, some ("missing clauses: expected " ++ toString cap ++ ", got " ++
        toString f.Clauses.length))
    else (f, none)

/-- Classification of a raw line as a clause line: nonempty after
trimming, and its first character is neither `c` nor `p`. -/
def isClauseB (l : String) : Bool :=
  match (TrimSpace l).data.head? with
  | none => false
  | some ch => !(ch = 'c') && !(ch = 'p')

/-- Classification of a raw line as a problem line. -/
def isProblemB (l : String) : Bool :=
  match (TrimSpace l).data.head? with
  | none => false
  | some ch => ch = 'p'

/-- Classification of a raw line as a comment line. -/
def isCommentB (l : String) : Bool :=
  match (TrimSpace l).data.head? with
  | none => false
  | some ch => ch = 'c'

/-- Number of clause-classified lines in an input. -/
def countClauseLines (lines : List String) : Nat := lines.countP isClauseB

/-- Boolean success test for a scan result. -/
def isOkB : Except String α → Bool
  | .ok _ => true
  | .error _ => false

/-- Boolean failure test for a scan result. -/
def isErrB : Except String α → Bool
  | .ok _ => false
  | .error _ => true

/-- `CommentInterleaved xs ys` holds when `xs` is `ys` with comment lines
(lines whose first non-whitespace character is `c`) inserted anywhere. -/
inductive CommentInterleaved : List String → List String → Prop
  | nil : CommentInterleaved [] []
  | keep (l : String) {xs ys : List String} (h : CommentInterleaved xs ys) :
      CommentInterleaved (l :: xs) (l :: ys)
  | ins (l : String) {xs ys : List String}
      (hc : (TrimSpace l).data.head? = some 'c') (h : CommentInterleaved xs ys) :
      CommentInterleaved (l :: xs) ys

/-- The success-case input of the spec (problem line and four clause
lines). -/
def baseLines : List String :=
  ["p cnf 3 4", "1 2 3 0", "1 -2 3 0", "1 -3 0", "-2 -3 0"]

/-- The formula the success-case input must parse to. -/
def baseFormula : CNFFormula := ⟨3, [[1, 2, 3], [1, -2, 3], [1, -3], [-2, -3]]⟩

/-- A problem-classified line is syntactically malformed when it does not
split into exactly 4 fields or one of its two count fields does not parse
as an integer. -/
def problemShapeBadB (l : String) : Bool :=
  match Fields (TrimSpace l) with
  | [_, _, vs, cs] => isErrB (Atoi vs) || isErrB (Atoi cs)
  | _ => true

/-- A clause line's token list is syntactically malformed when scanning
left to right a token fails to parse as an integer, or a token with value
0 occurs before the final token. -/
def badClauseTokensB : List String → Bool
  | [] => false
  | t :: rest =>
    match Atoi t with
    | .error _ => true
    | .ok v => if v = 0 then !rest.isEmpty else badClauseTokensB rest

/-- A raw line contains a syntax error that the scanner itself rejects:
blank and comment lines never do; problem lines via `problemShapeBadB`;
clause lines via `badClauseTokensB`. -/
def lineSyntaxBadB (l : String) : Bool :=
  match (TrimSpace l).data.head? with
  | none => false
  | some ch =>
    if ch = 'c' then false
    else if ch = 'p' then problemShapeBadB l
    else badClauseTokensB (Fields (TrimSpace l))

/-- A consumer whose three operations never return an error. -/
def TotalBuilder (ops : Builder σ) : Prop :=
  (∀ s p v c, ∃ s2, ops.Problem s p v c = .ok s2) ∧
  (∀ s cl, ∃ s2, ops.Clause s cl = .ok s2) ∧
  (∀ s l, ∃ s2, ops.Comment s l = .ok s2)

/-- The consumer that accepts everything and accumulates nothing. -/
def trivialBuilder : Builder Unit :=
  { Problem := fun _ _ _ _ => .ok ()
  , Clause := fun _ _ => .ok ()
  , Comment := fun _ _ => .ok () }

/-- A consumer that fails on its first comment, mirroring the
`testBuilder` of the Go tests with only `CommentErr` set. -/
def commentFailBuilder : Builder Unit :=
  { Problem := fun _ _ _ _ => .ok ()
  , Clause := fun _ _ => .ok ()
  , Comment := fun _ _ => .error "comment error" }

/-! ## Basic scanner lemmas -/

theorem processLine_blank (ops : Builder σ) (s : σ) (l : String)
    (h : (TrimSpace l).data.head? = none) : processLine ops s l = .ok s := by
  simp [processLine, dispatch, h]

theorem processLine_comment_eq (ops : Builder σ) (s : σ) (l : String)
    (h : (TrimSpace l).data.head? = some 'c') :
    processLine ops s l = ops.Comment s (TrimSpace l) := by
  simp [processLine, dispatch, h]

theorem processLine_problem_eq (ops : Builder σ) (s : σ) (l : String)
    (h : (TrimSpace l).data.head? = some 'p') :
    processLine ops s l = handleProblem ops s (TrimSpace l) := by
  simp [processLine, dispatch, h]

theorem processLine_clause_eq (ops : Builder σ) (s : σ) (l : String) (ch : Char)
    (h : (TrimSpace l).data.head? = some ch) (hc : ch ≠ 'c') (hp : ch ≠ 'p') :
    processLine ops s l = handleClause ops s (TrimSpace l) := by
  simp [processLine, dispatch, h, hc, hp]

theorem runLines_append (ops : Builder σ) (s : σ) (xs ys : List String) :
    runLines ops s (xs ++ ys) =
      match runLines ops s xs with
      | .error e => .error e
      | .ok s2 => runLines ops s2 ys := by
  induction xs generalizing s with
  | nil => simp [runLines]
  | cons l rest ih =>
    simp only [List.cons_append, runLines]
    cases processLine ops s l with
    | error e => rfl
    | ok s2 => exact ih s2

theorem ReadBuilder_shortCircuit (ops : Builder σ) (s s2 : σ) (pre : List String)
    (line : String) (post : List String) (err : Option String) (e : String)
    (hpre : runLines ops s pre = .ok s2)
    (hline : processLine ops s2 line = .error e) :
    ReadBuilder ops s (pre ++ line :: post) err = .error e := by
  unfold ReadBuilder
  rw [runLines_append, hpre]
  simp [runLines, hline]

theorem ReadBuilder_ok_inv (ops : Builder σ) (s s' : σ) (lines : List String)
    (err : Option String) (h : ReadBuilder ops s lines err = .ok s') :
    runLines ops s lines = .ok s' ∧ err = none := by
  unfold ReadBuilder at h
  cases hr : runLines ops s lines with
  | error e => rw [hr] at h; cases h
  | ok s2 =>
    rw [hr] at h
    cases err with
    | none => cases h; exact ⟨rfl, rfl⟩
    | some e => cases h

/-! ## Inversion lemmas for the line handlers -/

theorem handleProblem_ok_inv (ops : Builder σ) (s s' : σ) (line : String)
    (h : handleProblem ops s line = .ok s') :
    ∃ m tag vs cs v c, Fields line = [m, tag, vs, cs] ∧ Atoi vs = .ok v ∧
      Atoi cs = .ok c ∧ ops.Problem s tag v c = .ok s' := by
  unfold handleProblem at h
  rcases hF : Fields line with _ | ⟨a, _ | ⟨tag, _ | ⟨vs, _ | ⟨cs, _ | ⟨x, xs⟩⟩⟩⟩⟩ <;>
      rw [hF] at h <;> simp only [] at h
  case cons.cons.cons.cons.nil =>
    cases hv : Atoi vs with
    | error e => rw [hv] at h; simp at h
    | ok v =>
      rw [hv] at h
      cases hc : Atoi cs with
      | error e => rw [hc] at h; simp at h
      | ok c =>
        rw [hc] at h
        simp only [] at h
        exact ⟨a, tag, vs, cs, v, c, hF ▸ rfl, hv, hc, h⟩
  all_goals simp at h

theorem handleClause_ok_inv (ops : Builder σ) (s s' : σ) (line : String)
    (h : handleClause ops s line = .ok s') :
    ∃ lits, scanLits line (Fields line) [] = .ok lits ∧
      ops.Clause s lits = .ok s' := by
  unfold handleClause at h
  split at h
  · cases h
  · rename_i lits hl
    exact ⟨lits, hl, h⟩

theorem cnfProblem_ok_inv (b b' : CnfSt) (p : String) (v c : Int)
    (h : cnfProblem b p v c = .ok b') :
    b = none ∧ p = "cnf" ∧ 0 ≤ v ∧ 0 ≤ c ∧ b' = some (⟨v, []⟩, c.toNat) := by
  cases b with
  | some fc => simp [cnfProblem] at h
  | none =>
    unfold cnfProblem at h
    split_ifs at h with h1 h2 h3
    cases h
    exact ⟨rfl, by simpa using h1, by omega, by omega, rfl⟩

theorem cnfClause_ok_inv (b b' : CnfSt) (tmp : List Int)
    (h : cnfClause b tmp = .ok b') :
    ∃ f cap, b = some (f, cap) ∧ f.Clauses.length ≠ cap ∧
      b' = some (⟨f.NumVars, f.Clauses ++ [tmp]⟩, cap) := by
  cases b with
  | none => simp [cnfClause] at h
  | some fc =>
    obtain ⟨f, cap⟩ := fc
    simp only [cnfClause] at h
    split_ifs at h with h1
    cases h
    exact ⟨f, cap, rfl, h1, rfl⟩

theorem problem_from_some_err (fc : CNFFormula × Nat) (line : String) :
    ∃ e, handleProblem cnfBuilder (some fc) line = .error e := by
  cases h : handleProblem cnfBuilder (some fc) line with
  | error e => exact ⟨e, rfl⟩
  | ok s' =>
    obtain ⟨m, tag, vs, cs, v, c, _, _, _, hP⟩ :=
      handleProblem_ok_inv cnfBuilder (some fc) s' line h
    simp [cnfBuilder, cnfProblem] at hP

theorem clause_from_none_err (line : String) :
    ∃ e, handleClause cnfBuilder none line = .error e := by
  cases h : handleClause cnfBuilder none line with
  | error e => exact ⟨e, rfl⟩
  | ok s' =>
    obtain ⟨lits, _, hC⟩ := handleClause_ok_inv cnfBuilder none s' line h
    simp [cnfBuilder, cnfClause] at hC

theorem clause_full_err (f : CNFFormula) (cap : Nat)
    (hfull : f.Clauses.length = cap) (line : String) :
    ∃ e, handleClause cnfBuilder (some (f, cap)) line = .error e := by
  cases h : handleClause cnfBuilder (some (f, cap)) line with
  | error e => exact ⟨e, rfl⟩
  | ok s' =>
    obtain ⟨lits, _, hC⟩ := handleClause_ok_inv cnfBuilder (some (f, cap)) s' line h
    obtain ⟨g, gcap, hb, hne, _⟩ := cnfClause_ok_inv (some (f, cap)) s' lits hC
    cases hb
    exact absurd hfull hne

theorem scanLits_ok_no_zero (line : String) :
    ∀ (parts : List String) (acc res : List Int),
      scanLits line parts acc = .ok res → (∀ x ∈ acc, x ≠ 0) →
      ∀ x ∈ res, x ≠ 0 := by
  intro parts
  induction parts with
  | nil =>
    intro acc res h hacc
    simp only [scanLits] at h
    cases h
    exact hacc
  | cons t rest ih =>
    intro acc res h hacc
    simp only [scanLits] at h
    cases hA : Atoi t with
    | error e => rw [hA] at h; simp at h
    | ok l =>
      rw [hA] at h
      simp only [] at h
      by_cases hl : l = 0
      · rw [if_pos hl] at h
        by_cases hr : rest.isEmpty
        · rw [if_pos hr] at h; cases h; exact hacc
        · rw [if_neg hr] at h; cases h
      · rw [if_neg hl] at h
        refine ih (acc ++ [l]) res h ?_
        intro x hx
        rcases List.mem_append.mp hx with hx | hx
        · exact hacc x hx
        · rw [List.mem_singleton.mp hx]; exact hl

/-! ## Classification lemmas -/

theorem isClauseB_false_blank (l : String) (h : (TrimSpace l).data.head? = none) :
    isClauseB l = false := by simp [isClauseB, h]

theorem isClauseB_false_comment (l : String)
    (h : (TrimSpace l).data.head? = some 'c') : isClauseB l = false := by
  simp [isClauseB, h]

theorem isClauseB_false_problem (l : String)
    (h : (TrimSpace l).data.head? = some 'p') : isClauseB l = false := by
  simp [isClauseB, h]

theorem isClauseB_true (l : String) (ch : Char)
    (h : (TrimSpace l).data.head? = some ch) (hc : ch ≠ 'c') (hp : ch ≠ 'p') :
    isClauseB l = true := by
  simp [isClauseB, h, hc, hp]

theorem countClauseLines_cons_false (l : String) (rest : List String)
    (h : isClauseB l = false) :
    countClauseLines (l :: rest) = countClauseLines rest := by
  simp [countClauseLines, List.countP_cons, h]

theorem countClauseLines_cons_true (l : String) (rest : List String)
    (h : isClauseB l = true) :
    countClauseLines (l :: rest) = countClauseLines rest + 1 := by
  simp [countClauseLines, List.countP_cons, h]

/-! ## Runs of the reference consumer -/

theorem runLines_from_some :
    ∀ (lines : List String) (f : CNFFormula) (cap : Nat) (s' : CnfSt),
      f.Clauses.length ≤ cap →
      runLines cnfBuilder (some (f, cap)) lines = .ok s' →
      ∃ added, s' = some (⟨f.NumVars, f.Clauses ++ added⟩, cap) ∧
        added.length = countClauseLines lines ∧
        (∀ cl ∈ added, (0 : Int) ∉ cl) ∧
        f.Clauses.length + added.length ≤ cap := by
  intro lines
  induction lines with
  | nil =>
    intro f cap s' hle h
    simp only [runLines] at h
    cases h
    exact ⟨[], by simp, by simp [countClauseLines], by simp, by simpa using hle⟩
  | cons l rest ih =>
    intro f cap s' hle h
    simp only [runLines] at h
    cases hp : processLine cnfBuilder (some (f, cap)) l with
    | error e => rw [hp] at h; simp at h
    | ok s2 =>
      rw [hp] at h
      simp only [] at h
      rcases hHead : (TrimSpace l).data.head? with _ | ch
      · rw [processLine_blank _ _ _ hHead] at hp
        cases hp
        obtain ⟨added, h1, h2, h3, h4⟩ := ih f cap s' hle h
        refine ⟨added, h1, ?_, h3, h4⟩
        rw [countClauseLines_cons_false _ _ (isClauseB_false_blank _ hHead)]
        exact h2
      · by_cases hc : ch = 'c'
        · subst hc
          rw [processLine_comment_eq _ _ _ hHead] at hp
          simp only [cnfBuilder] at hp
          cases hp
          obtain ⟨added, h1, h2, h3, h4⟩ := ih f cap s' hle h
          refine ⟨added, h1, ?_, h3, h4⟩
          rw [countClauseLines_cons_false _ _ (isClauseB_false_comment _ hHead)]
          exact h2
        · by_cases hpch : ch = 'p'
          · subst hpch
            rw [processLine_problem_eq _ _ _ hHead] at hp
            obtain ⟨e, he⟩ := problem_from_some_err (f, cap) (TrimSpace l)
            rw [he] at hp
            cases hp
          · rw [processLine_clause_eq _ _ _ ch hHead hc hpch] at hp
            obtain ⟨lits, hscan, hC⟩ := handleClause_ok_inv _ _ _ _ hp
            have hC' : cnfClause (some (f, cap)) lits = .ok s2 := hC
            obtain ⟨g, gcap, hb, hne, hs2⟩ := cnfClause_ok_inv _ _ _ hC'
            obtain ⟨hgf, hgc⟩ : f = g ∧ cap = gcap := by simpa using hb
            subst hgf
            subst hgc
            subst hs2
            have hle2 : (⟨f.NumVars, f.Clauses ++ [lits]⟩ : CNFFormula).Clauses.length ≤ cap := by
              simp only [List.length_append, List.length_singleton]
              omega
            obtain ⟨added, h1, h2, h3, h4⟩ :=
              ih ⟨f.NumVars, f.Clauses ++ [lits]⟩ cap s' hle2 h
            refine ⟨lits :: added, ?_, ?_, ?_, ?_⟩
            · rw [h1]
              simp [List.append_assoc]
            · rw [countClauseLines_cons_true _ _ (isClauseB_true _ ch hHead hc hpch)]
              simp only [List.length_cons]
              rw [h2]
            · intro cl hcl
              rcases List.mem_cons.mp hcl with hcl | hcl
              · subst hcl
                intro h0
                exact scanLits_ok_no_zero _ _ _ _ hscan (by simp) 0 h0 rfl
              · exact h3 cl hcl
            · simp only [List.length_append, List.length_singleton] at h4
              simp only [List.length_cons]
              omega

theorem runLines_from_none :
    ∀ (lines : List String) (s' : CnfSt),
      runLines cnfBuilder none lines = .ok s' →
      s' = none ∨
        ∃ f cap, s' = some (f, cap) ∧
          f.Clauses.length = countClauseLines lines ∧
          f.Clauses.length ≤ cap ∧ ∀ cl ∈ f.Clauses, (0 : Int) ∉ cl := by
  intro lines
  induction lines with
  | nil =>
    intro s' h
    simp only [runLines] at h
    cases h
    exact .inl rfl
  | cons l rest ih =>
    intro s' h
    simp only [runLines] at h
    cases hp : processLine cnfBuilder none l with
    | error e => rw [hp] at h; simp at h
    | ok s2 =>
      rw [hp] at h
      simp only [] at h
      rcases hHead : (TrimSpace l).data.head? with _ | ch
      · rw [processLine_blank _ _ _ hHead] at hp
        cases hp
        rcases ih s' h with h0 | ⟨f, cap, h1, h2, h3, h4⟩
        · exact .inl h0
        · refine .inr ⟨f, cap, h1, ?_, h3, h4⟩
          rw [countClauseLines_cons_false _ _ (isClauseB_false_blank _ hHead)]
          exact h2
      · by_cases hc : ch = 'c'
        · subst hc
          rw [processLine_comment_eq _ _ _ hHead] at hp
          simp only [cnfBuilder] at hp
          cases hp
          rcases ih s' h with h0 | ⟨f, cap, h1, h2, h3, h4⟩
          · exact .inl h0
          · refine .inr ⟨f, cap, h1, ?_, h3, h4⟩
            rw [countClauseLines_cons_false _ _ (isClauseB_false_comment _ hHead)]
            exact h2
        · by_cases hpch : ch = 'p'
          · subst hpch
            rw [processLine_problem_eq _ _ _ hHead] at hp
            obtain ⟨m, tag, vs, cs, v, c, hF, hv, hcs, hP⟩ :=
              handleProblem_ok_inv _ _ _ _ hp
            have hP' : cnfProblem none tag v c = .ok s2 := hP
            obtain ⟨-, htag, hv0, hc0, hs2⟩ := cnfProblem_ok_inv none s2 tag v c hP'
            subst hs2
            obtain ⟨added, h1, h2, h3, h4⟩ :=
              runLines_from_some rest ⟨v, []⟩ c.toNat s' (by simp) h
            refine .inr ⟨⟨v, added⟩, c.toNat, ?_, ?_, ?_, ?_⟩
            · simpa using h1
            · simp only []
              rw [countClauseLines_cons_false _ _ (isClauseB_false_problem _ hHead)]
              simpa using h2
            · simpa using h4
            · simpa using h3
          · rw [processLine_clause_eq _ _ _ ch hHead hc hpch] at hp
            obtain ⟨e, he⟩ := clause_from_none_err (TrimSpace l)
            rw [he] at hp
            cases hp

theorem ReadCNF_ok_inv (lines : List String) (err : Option String) (f : CNFFormula)
    (h : ReadCNF lines err = (f, none)) :
    ∃ cap, ReadBuilder cnfBuilder none lines err = .ok (some (f, cap)) ∧
      ¬f.Clauses.length < cap := by
  unfold ReadCNF at h
  cases hRB : ReadBuilder cnfBuilder none lines err with
  | error e => rw [hRB] at h; simp at h
  | ok b =>
    rw [hRB] at h
    cases b with
    | none => simp at h
    | some fc =>
      obtain ⟨g, cap⟩ := fc
      simp only [] at h
      by_cases hlt : g.Clauses.length < cap
      · rw [if_pos hlt] at h; simp at h
      · rw [if_neg hlt] at h
        injection h with h1 h2
        subst h1
        exact ⟨cap, hRB ▸ rfl, hlt⟩

/-! ## Interleaving comment lines -/

theorem processLine_comment_cnf (s : CnfSt) (l : String)
    (h : (TrimSpace l).data.head? = some 'c') :
    processLine cnfBuilder s l = .ok s := by
  rw [processLine_comment_eq _ _ _ h]
  rfl

theorem runLines_interleaved {xs ys : List String}
    (h : CommentInterleaved xs ys) :
    ∀ s, runLines cnfBuilder s xs = runLines cnfBuilder s ys := by
  induction h with
  | nil => intro s; rfl
  | keep l h ih =>
    intro s
    simp only [runLines]
    cases processLine cnfBuilder s l with
    | error e => rfl
    | ok s2 => exact ih s2
  | ins l hc h ih =>
    intro s
    simp only [runLines, processLine_comment_cnf s l hc]
    exact ih s

theorem ReadCNF_congr_runLines (xs ys : List String) (err : Option String)
    (h : ∀ s, runLines cnfBuilder s xs = runLines cnfBuilder s ys) :
    ReadCNF xs err = ReadCNF ys err := by
  unfold ReadCNF ReadBuilder
  rw [h none]

/-! ## Claim theorems -/

/-- C1: the success-case input `p cnf 3 4` / `1 2 3 0` / `1 -2 3 0` /
`1 -3 0` / `-2 -3 0` parses without error to `NumVars = 3` and the four
clauses in order, and inserting comment lines anywhere (before, between,
or after the other lines) yields the identical formula. -/
theorem C1_success_with_interleaved_comments (lines : List String)
    (h : CommentInterleaved lines baseLines) :
    ReadCNF lines none = (baseFormula, none) := by
  rw [ReadCNF_congr_runLines lines baseLines none (runLines_interleaved h)]
  decide

theorem C1_witness :
    ReadCNF ["c head", "p cnf 3 4", "1 2 3 0", "c mid", "1 -2 3 0", "1 -3 0",
      "-2 -3 0", "c tail"] none = (baseFormula, none) :=
  C1_success_with_interleaved_comments _
    (.ins _ (by decide) (.keep _ (.keep _ (.ins _ (by decide)
      (.keep _ (.keep _ (.keep _ (.ins _ (by decide) .nil))))))))

/-- C8: whenever `ReadCNF` returns an error, the formula component of its
result is the zero-value formula (no variables, no clauses); no partially
populated formula accompanies an error. -/
theorem C8_error_returns_zero_formula (lines : List String)
    (err : Option String) (f : CNFFormula) (e : String)
    (h : ReadCNF lines err = (f, some e)) : f = ⟨0, []⟩ := by
  unfold ReadCNF at h
  cases hRB : ReadBuilder cnfBuilder none lines err with
  | error e2 =>
    rw [hRB] at h
    exact (congrArg Prod.fst h).symm
  | ok b =>
    rw [hRB] at h
    cases b with
    | none => exact (congrArg Prod.fst h).symm
    | some fc =>
      obtain ⟨g, cap⟩ := fc
      simp only [] at h
      by_cases hlt : g.Clauses.length < cap
      · rw [if_pos hlt] at h
        exact (congrArg Prod.fst h).symm
      · rw [if_neg hlt] at h
        injection h with h1 h2
        cases h2

theorem C8_witness : (ReadCNF [] none).1 = ⟨0, []⟩ :=
  C8_error_returns_zero_formula [] none (ReadCNF [] none).1
    "missing problem line found" (by decide)

/-- C10: a clause line consisting solely of the terminator token `0` is
accepted: the scanner invokes the consumer's `Clause` operation with the
empty clause (first conjunct, for an arbitrary consumer), and `ReadCNF`
appends an empty clause that counts toward the declared clause count
(second conjunct). -/
theorem C10_lone_zero_empty_clause :
    (∀ (σ : Type) (ops : Builder σ) (s : σ) (l : String) (ch : Char),
      (TrimSpace l).data.head? = some ch → ch ≠ 'c' → ch ≠ 'p' →
      Fields (TrimSpace l) = ["0"] →
      processLine ops s l = ops.Clause s []) ∧
    ReadCNF ["p cnf 3 2", "0", "1 2 0"] none = (⟨3, [[], [1, 2]]⟩, none) := by
  constructor
  · intro σ ops s l ch hHead hc hpch hF
    rw [processLine_clause_eq _ _ _ ch hHead hc hpch]
    unfold handleClause
    rw [hF]
    simp [scanLits, show Atoi "0" = Except.ok 0 from rfl]
  · decide

theorem C10_witness :
    processLine cnfBuilder (some (⟨1, []⟩, 1)) " 0 " =
      cnfBuilder.Clause (some (⟨1, []⟩, 1)) [] :=
  C10_lone_zero_empty_clause.1 CnfSt cnfBuilder (some (⟨1, []⟩, 1)) " 0 " '0'
    (by decide) (by decide) (by decide) (by decide)

/-! ## More helper lemmas for the reference consumer -/

theorem isProblemB_elim (l : String) (h : isProblemB l = true) :
    (TrimSpace l).data.head? = some 'p' := by
  unfold isProblemB at h
  cases hh : (TrimSpace l).data.head? with
  | none => rw [hh] at h; simp at h
  | some ch =>
    rw [hh] at h
    simp at h
    rw [h]

theorem isClauseB_elim (l : String) (h : isClauseB l = true) :
    ∃ ch, (TrimSpace l).data.head? = some ch ∧ ch ≠ 'c' ∧ ch ≠ 'p' := by
  unfold isClauseB at h
  cases hh : (TrimSpace l).data.head? with
  | none => rw [hh] at h; simp at h
  | some ch =>
    rw [hh] at h
    simp at h
    exact ⟨ch, rfl, h.1, h.2⟩

theorem processLine_problem_ok_some (s : CnfSt) (l : String) (s2 : CnfSt)
    (hP : isProblemB l = true) (h : processLine cnfBuilder s l = .ok s2) :
    ∃ (v : Int) (capn : Nat), s2 = some (⟨v, []⟩, capn) := by
  rw [processLine_problem_eq _ _ _ (isProblemB_elim l hP)] at h
  obtain ⟨m, tag, vs, cs, v, c, hF, hv, hc, hOp⟩ := handleProblem_ok_inv _ _ _ _ h
  have hOp' : cnfProblem s tag v c = .ok s2 := hOp
  obtain ⟨-, -, -, -, hs2⟩ := cnfProblem_ok_inv s s2 tag v c hOp'
  exact ⟨v, c.toNat, hs2⟩

theorem processLine_problem_from_some_err (fc : CNFFormula × Nat) (l : String)
    (hP : isProblemB l = true) :
    ∃ e, processLine cnfBuilder (some fc) l = .error e := by
  rw [processLine_problem_eq _ _ _ (isProblemB_elim l hP)]
  exact problem_from_some_err fc (TrimSpace l)

theorem processLine_clause_from_none_err (l : String) (hC : isClauseB l = true) :
    ∃ e, processLine cnfBuilder none l = .error e := by
  obtain ⟨ch, hh, hc, hp⟩ := isClauseB_elim l hC
  rw [processLine_clause_eq _ _ _ ch hh hc hp]
  exact clause_from_none_err (TrimSpace l)

theorem processLine_clause_full_err (f : CNFFormula) (cap : Nat)
    (hfull : f.Clauses.length = cap) (l : String) (hC : isClauseB l = true) :
    ∃ e, processLine cnfBuilder (some (f, cap)) l = .error e := by
  obtain ⟨ch, hh, hc, hp⟩ := isClauseB_elim l hC
  rw [processLine_clause_eq _ _ _ ch hh hc hp]
  exact clause_full_err f cap hfull (TrimSpace l)

theorem runLines_err_front (ops : Builder σ) (s : σ) (pre rest : List String)
    (e : String) (h : runLines ops s pre = .error e) :
    runLines ops s (pre ++ rest) = .error e := by
  rw [runLines_append, h]

theorem runLines_err_at (ops : Builder σ) (s s2 : σ) (pre : List String)
    (line : String) (post : List String) (e : String)
    (hpre : runLines ops s pre = .ok s2)
    (hline : processLine ops s2 line = .error e) :
    runLines ops s (pre ++ line :: post) = .error e := by
  rw [runLines_append, hpre]
  simp [runLines, hline]

theorem ReadCNF_snd_error (lines : List String) (err : Option String) (e : String)
    (h : runLines cnfBuilder none lines = .error e) :
    (ReadCNF lines err).2 = some e := by
  unfold ReadCNF ReadBuilder
  rw [h]

theorem ReadCNF_snd_isSome_of_no_ok_some (lines : List String) (err : Option String)
    (h : ∀ g cap, runLines cnfBuilder none lines ≠ .ok (some (g, cap))) :
    (ReadCNF lines err).2.isSome = true := by
  unfold ReadCNF ReadBuilder
  cases hr : runLines cnfBuilder none lines with
  | error e => simp
  | ok s2 =>
    cases s2 with
    | none => cases err <;> simp
    | some fc =>
      obtain ⟨g, cap⟩ := fc
      exact absurd hr (h g cap)

theorem runLines_no_problem_stays_none (lines : List String)
    (h : ∀ l ∈ lines, isProblemB l = false) :
    ∀ s', runLines cnfBuilder none lines = .ok s' → s' = none := by
  induction lines with
  | nil =>
    intro s' hs
    simp only [runLines] at hs
    cases hs
    rfl
  | cons l rest ih =>
    intro s' hs
    have hP := h l (List.mem_cons_self l rest)
    have hrest := fun x hx => h x (List.mem_cons_of_mem l hx)
    simp only [runLines] at hs
    rcases hh : (TrimSpace l).data.head? with _ | ch
    · rw [processLine_blank _ _ _ hh] at hs
      exact ih hrest s' hs
    · by_cases hc : ch = 'c'
      · subst hc
        rw [processLine_comment_cnf none l hh] at hs
        exact ih hrest s' hs
      · have hp : ch ≠ 'p' := by
          intro hcp
          subst hcp
          unfold isProblemB at hP
          rw [hh] at hP
          simp at hP
        obtain ⟨e, he⟩ :=
          processLine_clause_from_none_err l (isClauseB_true l ch hh hc hp)
        rw [he] at hs
        simp at hs

theorem runLines_only_comments (lines : List String)
    (h : ∀ l ∈ lines, isProblemB l = false ∧ isClauseB l = false) :
    runLines cnfBuilder none lines = .ok none := by
  induction lines with
  | nil => rfl
  | cons l rest ih =>
    obtain ⟨hP, hC⟩ := h l (List.mem_cons_self l rest)
    have hrest := fun x hx => h x (List.mem_cons_of_mem l hx)
    simp only [runLines]
    rcases hh : (TrimSpace l).data.head? with _ | ch
    · rw [processLine_blank _ _ _ hh]
      exact ih hrest
    · have hch : ch = 'c' := by
        unfold isClauseB at hC
        unfold isProblemB at hP
        rw [hh] at hC hP
        simp at hC hP
        by_contra hcc
        exact hP (hC hcc)
      subst hch
      rw [processLine_comment_cnf none l hh]
      exact ih hrest

/-- C2: `ReadCNF` succeeds only when the number of clause lines parsed
equals the declared clause count, and then the formula's clause list has
exactly that length (first conjunct: the final consumer state carries the
formula with capacity equal to its length, and the input's clause-line
count equals that length); a clause line encountered after the declared
count has been filled aborts with an error no matter what follows (second
conjunct, mid-scan); and if the scan ends with fewer clauses than
declared, `ReadCNF` reports the missing-clauses error at end-of-stream
(third conjunct). -/
theorem C2_clause_count_matches_declared :
    (∀ (lines : List String) (err : Option String) (f : CNFFormula),
      ReadCNF lines err = (f, none) →
      ReadBuilder cnfBuilder none lines err = .ok (some (f, f.Clauses.length)) ∧
        countClauseLines lines = f.Clauses.length) ∧
    (∀ (pre : List String) (line : String) (post : List String)
      (err : Option String) (f : CNFFormula) (cap : Nat),
      runLines cnfBuilder none pre = .ok (some (f, cap)) →
      f.Clauses.length = cap → isClauseB line = true →
      (ReadCNF (pre ++ line :: post) err).2.isSome = true) ∧
    (∀ (lines : List String) (f : CNFFormula) (cap : Nat),
      runLines cnfBuilder none lines = .ok (some (f, cap)) →
      f.Clauses.length < cap →
      (ReadCNF lines none).2 =
        some ("missing clauses: expected " ++ toString cap ++ ", got " ++
          toString f.Clauses.length)) := by
  refine ⟨?_, ?_, ?_⟩
  · intro lines err f h
    obtain ⟨cap, hRB, hnlt⟩ := ReadCNF_ok_inv lines err f h
    obtain ⟨hrun, rfl⟩ := ReadBuilder_ok_inv _ _ _ _ _ hRB
    rcases runLines_from_none lines _ hrun with h0 | ⟨g, gcap, heq, hcount, hle, hnz⟩
    · cases h0
    · obtain ⟨hgf, hgc⟩ : f = g ∧ cap = gcap := by simpa using heq
      subst hgf
      subst hgc
      have hcap : f.Clauses.length = cap := by omega
      subst hcap
      exact ⟨hRB, hcount.symm⟩
  · intro pre line post err f cap hpre hfull hCl
    obtain ⟨e, he⟩ := processLine_clause_full_err f cap hfull line hCl
    have := runLines_err_at cnfBuilder none (some (f, cap)) pre line post e hpre he
    rw [ReadCNF_snd_error _ err e this]
    rfl
  · intro lines f cap hrun hlt
    unfold ReadCNF ReadBuilder
    rw [hrun]
    simp [hlt]

theorem C2_witness :
    ReadBuilder cnfBuilder none baseLines none =
        .ok (some (baseFormula, baseFormula.Clauses.length)) ∧
      countClauseLines baseLines = baseFormula.Clauses.length :=
  C2_clause_count_matches_declared.1 baseLines none baseFormula (by decide)

/-- C5: `ReadCNF` succeeds only with exactly one problem line preceding
every clause line: with no problem-classified line in the input the
result is an error (first conjunct); with only comment or blank lines the
specific end-of-stream error is `missing problem line found` (second
conjunct); a clause line before any problem line forces an error (third
conjunct); and two problem-classified lines force an error (fourth
conjunct). -/
theorem C5_exactly_one_problem_line :
    (∀ (lines : List String) (err : Option String),
      (∀ l ∈ lines, isProblemB l = false) →
      (ReadCNF lines err).2.isSome = true) ∧
    (∀ lines : List String,
      (∀ l ∈ lines, isProblemB l = false ∧ isClauseB l = false) →
      ReadCNF lines none = (⟨0, []⟩, some "missing problem line found")) ∧
    (∀ (pre : List String) (cl : String) (rest : List String)
      (err : Option String),
      (∀ l ∈ pre, isProblemB l = false) → isClauseB cl = true →
      (ReadCNF (pre ++ cl :: rest) err).2.isSome = true) ∧
    (∀ (A : List String) (p1 : String) (B : List String) (p2 : String)
      (C : List String) (err : Option String),
      isProblemB p1 = true → isProblemB p2 = true →
      (ReadCNF (A ++ p1 :: (B ++ p2 :: C)) err).2.isSome = true) := by
  refine ⟨?_, ?_, ?_, ?_⟩
  · intro lines err h
    refine ReadCNF_snd_isSome_of_no_ok_some lines err ?_
    intro g cap hok
    have := runLines_no_problem_stays_none lines h _ hok
    cases this
  · intro lines h
    unfold ReadCNF ReadBuilder
    rw [runLines_only_comments lines h]
  · intro pre cl rest err hpre hcl
    cases hA : runLines cnfBuilder none pre with
    | error e =>
      have := runLines_err_front cnfBuilder none pre (cl :: rest) e hA
      rw [ReadCNF_snd_error _ err e this]
      rfl
    | ok s2 =>
      have hs2 : s2 = none := runLines_no_problem_stays_none pre hpre s2 hA
      subst hs2
      obtain ⟨e, he⟩ := processLine_clause_from_none_err cl hcl
      have := runLines_err_at cnfBuilder none none pre cl rest e hA he
      rw [ReadCNF_snd_error _ err e this]
      rfl
  · intro A p1 B p2 C err hp1 hp2
    cases hA : runLines cnfBuilder none A with
    | error e =>
      have := runLines_err_front cnfBuilder none A (p1 :: (B ++ p2 :: C)) e hA
      rw [ReadCNF_snd_error _ err e this]
      rfl
    | ok sA =>
      cases hstep : processLine cnfBuilder sA p1 with
      | error e =>
        have := runLines_err_at cnfBuilder none sA A p1 (B ++ p2 :: C) e hA hstep
        rw [ReadCNF_snd_error _ err e this]
        rfl
      | ok s1 =>
        obtain ⟨v, capn, rfl⟩ := processLine_problem_ok_some sA p1 s1 hp1 hstep
        have hAp1 :
            runLines cnfBuilder none (A ++ [p1]) = .ok (some (⟨v, []⟩, capn)) := by
          rw [runLines_append, hA]
          simp [runLines, hstep]
        have hL : A ++ p1 :: (B ++ p2 :: C) = ((A ++ [p1]) ++ B) ++ p2 :: C := by
          simp
        rw [hL]
        cases hB : runLines cnfBuilder (some (⟨v, []⟩, capn)) B with
        | error e =>
          have hpreB : runLines cnfBuilder none ((A ++ [p1]) ++ B) = .error e := by
            rw [runLines_append, hAp1]
            exact hB
          have := runLines_err_front cnfBuilder none _ (p2 :: C) e hpreB
          rw [ReadCNF_snd_error _ err e this]
          rfl
        | ok sB =>
          obtain ⟨added, hsB, -, -, -⟩ :=
            runLines_from_some B ⟨v, []⟩ capn sB (by simp) hB
          subst hsB
          obtain ⟨e, he⟩ := processLine_problem_from_some_err _ p2 hp2
          have hpreB :
              runLines cnfBuilder none ((A ++ [p1]) ++ B) =
                .ok (some (⟨v, [] ++ added⟩, capn)) := by
            rw [runLines_append, hAp1]
            exact hB
          have := runLines_err_at cnfBuilder none _ ((A ++ [p1]) ++ B) p2 C e hpreB he
          rw [ReadCNF_snd_error _ err e this]
          rfl

theorem C5_witness : (ReadCNF ["c only a comment"] none).2.isSome = true :=
  C5_exactly_one_problem_line.1 ["c only a comment"] none (by decide)

/-! ## Zero-terminator lemmas -/

theorem scanLits_zero_mid_err (line : String) :
    ∀ (parts : List String) (acc : List Int) (pre : List String) (z : String)
      (post : List String), parts = pre ++ z :: post → post ≠ [] →
      Atoi z = .ok 0 → isOkB (scanLits line parts acc) = false := by
  intro parts
  induction parts with
  | nil =>
    intro acc pre z post hdec
    exact absurd hdec (by simp)
  | cons t rest ih =>
    intro acc pre z post hdec hpost hz
    cases pre with
    | nil =>
      simp only [List.nil_append, List.cons.injEq] at hdec
      obtain ⟨rfl, rfl⟩ := hdec
      cases rest with
      | nil => exact absurd rfl hpost
      | cons q post2 =>
        simp only [scanLits]
        rw [hz]
        rfl
    | cons p0 pre2 =>
      simp only [List.cons_append, List.cons.injEq] at hdec
      obtain ⟨rfl, hrest⟩ := hdec
      simp only [scanLits]
      cases hA : Atoi t with
      | error e => rfl
      | ok l =>
        simp only []
        by_cases hl : l = 0
        · subst hl
          rw [if_pos rfl]
          have hne : rest.isEmpty = false := by
            subst hrest
            simp
          rw [hne]
          rfl
        · rw [if_neg hl]
          exact ih (acc ++ [l]) pre2 z post hrest hpost hz

theorem scanLits_trailing_zero (line : String) :
    ∀ (parts : List String) (lits : List Int) (acc : List Int) (z : String),
      List.Forall₂ (fun t v => Atoi t = .ok v ∧ v ≠ 0) parts lits →
      Atoi z = .ok 0 →
      scanLits line (parts ++ [z]) acc = .ok (acc ++ lits) := by
  intro parts
  induction parts with
  | nil =>
    intro lits acc z hF hz
    cases hF
    simp only [List.nil_append, scanLits]
    rw [hz]
    simp
  | cons t parts2 ih =>
    intro lits acc z hF hz
    cases hF with
    | cons hhead htail =>
      rename_i v lits2
      obtain ⟨hA, hv⟩ := hhead
      simp only [List.cons_append, scanLits]
      rw [hA]
      simp only []
      rw [if_neg hv]
      simp only [List.append_eq]
      rw [ih lits2 (acc ++ [v]) z htail hz]
      simp

/-- C4: within a clause line a literal token of value 0 may occur only as
the final token — a 0 before the final token makes the scanner abort with
an error for any consumer (first conjunct); a trailing 0 is excluded from
the clause handed to the consumer (second conjunct); and no clause of a
formula successfully returned by `ReadCNF` contains the literal 0 (third
conjunct). -/
theorem C4_zero_terminator_rules :
    (∀ (σ : Type) (ops : Builder σ) (s : σ) (l : String),
      isClauseB l = true →
      ∀ (pre : List String) (z : String) (post : List String),
        Fields (TrimSpace l) = pre ++ z :: post → post ≠ [] → Atoi z = .ok 0 →
        isOkB (processLine ops s l) = false) ∧
    (∀ (σ : Type) (ops : Builder σ) (s : σ) (l : String),
      isClauseB l = true →
      ∀ (parts : List String) (z : String) (lits : List Int),
        Fields (TrimSpace l) = parts ++ [z] → Atoi z = .ok 0 →
        List.Forall₂ (fun t v => Atoi t = .ok v ∧ v ≠ 0) parts lits →
        processLine ops s l = ops.Clause s lits) ∧
    (∀ (lines : List String) (err : Option String) (f : CNFFormula),
      ReadCNF lines err = (f, none) → ∀ cl ∈ f.Clauses, (0 : Int) ∉ cl) := by
  refine ⟨?_, ?_, ?_⟩
  · intro σ ops s l hcl pre z post hF hpost hz
    obtain ⟨ch, hh, hc, hp⟩ := isClauseB_elim l hcl
    rw [processLine_clause_eq _ _ _ ch hh hc hp]
    unfold handleClause
    rw [hF]
    have := scanLits_zero_mid_err (TrimSpace l) (pre ++ z :: post) [] pre z post
      rfl hpost hz
    cases hscan : scanLits (TrimSpace l) (pre ++ z :: post) [] with
    | error e => rfl
    | ok lits => rw [hscan] at this; cases this
  · intro σ ops s l hcl parts z lits hF hz hFor
    obtain ⟨ch, hh, hc, hp⟩ := isClauseB_elim l hcl
    rw [processLine_clause_eq _ _ _ ch hh hc hp]
    unfold handleClause
    rw [hF, scanLits_trailing_zero (TrimSpace l) parts lits [] z hFor hz]
    simp
  · intro lines err f h cl hcl
    obtain ⟨cap, hRB, hnlt⟩ := ReadCNF_ok_inv lines err f h
    obtain ⟨hrun, rfl⟩ := ReadBuilder_ok_inv _ _ _ _ _ hRB
    rcases runLines_from_none lines _ hrun with h0 | ⟨g, gcap, heq, -, -, hnz⟩
    · cases h0
    · obtain ⟨hgf, hgc⟩ : f = g ∧ cap = gcap := by simpa using heq
      subst hgf
      exact hnz cl hcl

theorem C4_witness :
    processLine cnfBuilder (some (⟨3, []⟩, 1)) "1 -2 0" =
      cnfBuilder.Clause (some (⟨3, []⟩, 1)) [1, -2] :=
  C4_zero_terminator_rules.2.1 CnfSt cnfBuilder (some (⟨3, []⟩, 1)) "1 -2 0"
    (by decide) ["1", "-2"] "0" [1, -2] (by decide) rfl
    (.cons ⟨rfl, by decide⟩ (.cons ⟨rfl, by decide⟩ .nil))

/-! ## Problem-line shape lemmas -/

theorem isErrB_true_elim (x : Except String α) (h : isErrB x = true) :
    ∃ e, x = .error e := by
  cases x with
  | error e => exact ⟨e, rfl⟩
  | ok v => simp [isErrB] at h

theorem isErrB_false_elim (x : Except String α) (h : isErrB x = false) :
    ∃ v, x = .ok v := by
  cases x with
  | error e => simp [isErrB] at h
  | ok v => exact ⟨v, rfl⟩

theorem handleProblem_badShape_err (ops : Builder σ) (s : σ) (l : String)
    (hbad : problemShapeBadB l = true) :
    isOkB (handleProblem ops s (TrimSpace l)) = false := by
  unfold problemShapeBadB at hbad
  unfold handleProblem
  rcases hF : Fields (TrimSpace l) with _ | ⟨a, _ | ⟨tag, _ | ⟨vs, _ | ⟨cs, _ | ⟨x, xs⟩⟩⟩⟩⟩ <;>
      simp only [] at hbad ⊢
  case cons.cons.cons.cons.nil =>
    rw [hF] at hbad
    simp only [] at hbad
    cases hv : Atoi vs with
    | error e => rfl
    | ok v =>
      cases hc : Atoi cs with
      | error e => rfl
      | ok c => rw [hv, hc] at hbad; simp [isErrB] at hbad
  all_goals rfl

theorem cnf_problem_semantic_err (s : CnfSt) (pl : String)
    (m tag vs cs : String) (v c : Int)
    (hP : isProblemB pl = true) (hF : Fields (TrimSpace pl) = [m, tag, vs, cs])
    (hv : Atoi vs = .ok v) (hc : Atoi cs = .ok c)
    (hdisj : tag ≠ "cnf" ∨ v < 0 ∨ c < 0) :
    isOkB (processLine cnfBuilder s pl) = false := by
  cases s with
  | some fc =>
    obtain ⟨e, he⟩ := processLine_problem_from_some_err fc pl hP
    rw [he]
    rfl
  | none =>
    rw [processLine_problem_eq _ _ _ (isProblemB_elim pl hP)]
    unfold handleProblem
    rw [hF]
    simp only []
    rw [hv]
    simp only []
    rw [hc]
    simp only []
    show isOkB (cnfProblem none tag v c) = false
    simp only [cnfProblem]
    split_ifs with h1 h2 h3
    · rfl
    · rfl
    · rfl
    · rcases hdisj with h | h | h
      · exact absurd h h1
      · exact absurd h h2
      · exact absurd h h3

theorem RB_notOk_of_runLines_err (ops : Builder σ) (s : σ) (lines : List String)
    (err : Option String) (e : String) (h : runLines ops s lines = .error e) :
    isOkB (ReadBuilder ops s lines err) = false := by
  unfold ReadBuilder
  rw [h]
  rfl

/-- C6: a problem-classified line that does not split into exactly 4
whitespace fields, or whose variable-count or clause-count field does not
parse as an integer, aborts the scan with an error for any consumer
(first conjunct); and `ReadCNF` additionally errors whenever a
well-shaped problem line carries a format tag other than `cnf`, a
negative variable count, or a negative clause count (second conjunct). -/
theorem C6_problem_line_validation :
    (∀ (σ : Type) (ops : Builder σ) (s0 : σ) (pre : List String) (pl : String)
      (rest : List String) (err : Option String),
      isProblemB pl = true → problemShapeBadB pl = true →
      isOkB (ReadBuilder ops s0 (pre ++ pl :: rest) err) = false) ∧
    (∀ (pre : List String) (pl : String) (rest : List String)
      (err : Option String) (m tag vs cs : String) (v c : Int),
      isProblemB pl = true → Fields (TrimSpace pl) = [m, tag, vs, cs] →
      Atoi vs = .ok v → Atoi cs = .ok c →
      (tag ≠ "cnf" ∨ v < 0 ∨ c < 0) →
      (ReadCNF (pre ++ pl :: rest) err).2.isSome = true) := by
  constructor
  · intro σ ops s0 pre pl rest err hP hbad
    cases hpre : runLines ops s0 pre with
    | error e =>
      exact RB_notOk_of_runLines_err _ _ _ _ e
        (runLines_err_front ops s0 pre (pl :: rest) e hpre)
    | ok s2 =>
      have hstep : isOkB (processLine ops s2 pl) = false := by
        rw [processLine_problem_eq _ _ _ (isProblemB_elim pl hP)]
        exact handleProblem_badShape_err ops s2 pl hbad
      obtain ⟨e, he⟩ : ∃ e, processLine ops s2 pl = .error e := by
        cases hx : processLine ops s2 pl with
        | error e => exact ⟨e, rfl⟩
        | ok s3 => rw [hx] at hstep; cases hstep
      exact RB_notOk_of_runLines_err _ _ _ _ e
        (runLines_err_at ops s0 s2 pre pl rest e hpre he)
  · intro pre pl rest err m tag vs cs v c hP hF hv hc hdisj
    cases hpre : runLines cnfBuilder none pre with
    | error e =>
      rw [ReadCNF_snd_error _ err e
        (runLines_err_front cnfBuilder none pre (pl :: rest) e hpre)]
      rfl
    | ok s2 =>
      have hstep := cnf_problem_semantic_err s2 pl m tag vs cs v c hP hF hv hc hdisj
      obtain ⟨e, he⟩ : ∃ e, processLine cnfBuilder s2 pl = .error e := by
        cases hx : processLine cnfBuilder s2 pl with
        | error e => exact ⟨e, rfl⟩
        | ok s3 => rw [hx] at hstep; cases hstep
      rw [ReadCNF_snd_error _ err e
        (runLines_err_at cnfBuilder none s2 pre pl rest e hpre he)]
      rfl

theorem C6_witness : (ReadCNF ["p foo 1 2"] none).2.isSome = true :=
  C6_problem_line_validation.2 [] "p foo 1 2" [] none "p" "foo" "1" "2" 1 2
    (by decide) (by decide) rfl rfl (Or.inl (by decide))

/-- C7: whenever a consumer operation returns an error on some line, the
scan stops and `ReadBuilder` returns exactly that error, whatever lines
follow and whatever the stream-end state is — stated for each of the
three operations: `Comment` (first conjunct), `Problem` (second
conjunct, on a well-shaped problem line), and `Clause` (third conjunct,
on a well-scanned clause line). -/
theorem C7_consumer_error_propagates :
    (∀ (σ : Type) (ops : Builder σ) (s s2 : σ) (pre : List String)
      (line : String) (post : List String) (err : Option String) (e : String),
      runLines ops s pre = .ok s2 →
      (TrimSpace line).data.head? = some 'c' →
      ops.Comment s2 (TrimSpace line) = .error e →
      ReadBuilder ops s (pre ++ line :: post) err = .error e) ∧
    (∀ (σ : Type) (ops : Builder σ) (s s2 : σ) (pre : List String)
      (line : String) (post : List String) (err : Option String) (e : String)
      (m tag vs cs : String) (v c : Int),
      runLines ops s pre = .ok s2 →
      isProblemB line = true → Fields (TrimSpace line) = [m, tag, vs, cs] →
      Atoi vs = .ok v → Atoi cs = .ok c →
      ops.Problem s2 tag v c = .error e →
      ReadBuilder ops s (pre ++ line :: post) err = .error e) ∧
    (∀ (σ : Type) (ops : Builder σ) (s s2 : σ) (pre : List String)
      (line : String) (post : List String) (err : Option String) (e : String)
      (ch : Char) (lits : List Int),
      runLines ops s pre = .ok s2 →
      (TrimSpace line).data.head? = some ch → ch ≠ 'c' → ch ≠ 'p' →
      scanLits (TrimSpace line) (Fields (TrimSpace line)) [] = .ok lits →
      ops.Clause s2 lits = .error e →
      ReadBuilder ops s (pre ++ line :: post) err = .error e) := by
  refine ⟨?_, ?_, ?_⟩
  · intro σ ops s s2 pre line post err e hpre hh hOp
    refine ReadBuilder_shortCircuit ops s s2 pre line post err e hpre ?_
    rw [processLine_comment_eq _ _ _ hh]
    exact hOp
  · intro σ ops s s2 pre line post err e m tag vs cs v c hpre hP hF hv hc hOp
    refine ReadBuilder_shortCircuit ops s s2 pre line post err e hpre ?_
    rw [processLine_problem_eq _ _ _ (isProblemB_elim line hP)]
    unfold handleProblem
    rw [hF]
    simp only []
    rw [hv]
    simp only []
    rw [hc]
    simp only []
    exact hOp
  · intro σ ops s s2 pre line post err e ch lits hpre hh hch hpch hscan hOp
    refine ReadBuilder_shortCircuit ops s s2 pre line post err e hpre ?_
    rw [processLine_clause_eq _ _ _ ch hh hch hpch]
    unfold handleClause
    rw [hscan]
    simp only []
    exact hOp

theorem C7_witness :
    ReadBuilder commentFailBuilder () ["c hello", "p cnf 1 0"] none =
      .error "comment error" :=
  C7_consumer_error_propagates.1 Unit commentFailBuilder () () [] "c hello"
    ["p cnf 1 0"] none "comment error" rfl (by decide) rfl

/-! ## Syntactic characterization of scanner errors -/

theorem isOkB_false_elim (x : Except String α) (h : isOkB x = false) :
    ∃ e, x = .error e := by
  cases x with
  | error e => exact ⟨e, rfl⟩
  | ok v => simp [isOkB] at h

theorem isOkB_true_elim (x : Except String α) (h : isOkB x = true) :
    ∃ v, x = .ok v := by
  cases x with
  | error e => simp [isOkB] at h
  | ok v => exact ⟨v, rfl⟩

theorem scanLits_badTokens (line : String) :
    ∀ (parts : List String) (acc : List Int),
      (badClauseTokensB parts = true → isOkB (scanLits line parts acc) = false) ∧
      (badClauseTokensB parts = false → ∃ res, scanLits line parts acc = .ok res) := by
  intro parts
  induction parts with
  | nil =>
    intro acc
    constructor
    · intro hbad; simp [badClauseTokensB] at hbad
    · intro _; exact ⟨acc, rfl⟩
  | cons t rest ih =>
    intro acc
    constructor
    · intro hbad
      simp only [scanLits]
      unfold badClauseTokensB at hbad
      cases hA : Atoi t with
      | error e => rfl
      | ok v =>
        rw [hA] at hbad
        simp only [] at hbad ⊢
        by_cases hv : v = 0
        · subst hv
          rw [if_pos rfl] at hbad ⊢
          cases rest with
          | nil => simp at hbad
          | cons q r2 => rfl
        · rw [if_neg hv] at hbad ⊢
          exact (ih (acc ++ [v])).1 hbad
    · intro hgood
      simp only [scanLits]
      unfold badClauseTokensB at hgood
      cases hA : Atoi t with
      | error e => rw [hA] at hgood; simp at hgood
      | ok v =>
        rw [hA] at hgood
        simp only [] at hgood ⊢
        by_cases hv : v = 0
        · subst hv
          rw [if_pos rfl] at hgood ⊢
          cases rest with
          | nil => exact ⟨acc, rfl⟩
          | cons q r2 => simp at hgood
        · rw [if_neg hv] at hgood ⊢
          exact (ih (acc ++ [v])).2 hgood

theorem problemShape_good (l : String) (hgood : problemShapeBadB l = false) :
    ∃ m tag vs cs v c, Fields (TrimSpace l) = [m, tag, vs, cs] ∧
      Atoi vs = .ok v ∧ Atoi cs = .ok c := by
  unfold problemShapeBadB at hgood
  rcases hF : Fields (TrimSpace l) with _ | ⟨a, _ | ⟨tag, _ | ⟨vs, _ | ⟨cs, _ | ⟨x, xs⟩⟩⟩⟩⟩ <;>
      rw [hF] at hgood <;> simp at hgood
  obtain ⟨h1, h2⟩ := hgood
  obtain ⟨v, hv⟩ := isErrB_false_elim _ h1
  obtain ⟨c, hc⟩ := isErrB_false_elim _ h2
  exact ⟨a, tag, vs, cs, v, c, hF ▸ rfl, hv, hc⟩

theorem processLine_total (ops : Builder σ) (hT : TotalBuilder ops) (s : σ)
    (l : String) :
    (lineSyntaxBadB l = true → isOkB (processLine ops s l) = false) ∧
    (lineSyntaxBadB l = false → ∃ s2, processLine ops s l = .ok s2) := by
  obtain ⟨hTp, hTc, hTm⟩ := hT
  rcases hh : (TrimSpace l).data.head? with _ | ch
  · constructor
    · intro hbad
      unfold lineSyntaxBadB at hbad
      rw [hh] at hbad
      simp at hbad
    · intro _
      exact ⟨s, processLine_blank _ _ _ hh⟩
  · by_cases hc : ch = 'c'
    · subst hc
      constructor
      · intro hbad
        unfold lineSyntaxBadB at hbad
        rw [hh] at hbad
        simp at hbad
      · intro _
        obtain ⟨s2, hs2⟩ := hTm s (TrimSpace l)
        exact ⟨s2, by rw [processLine_comment_eq _ _ _ hh]; exact hs2⟩
    · by_cases hp : ch = 'p'
      · subst hp
        have hbadeq : lineSyntaxBadB l = problemShapeBadB l := by
          unfold lineSyntaxBadB
          rw [hh]
          simp
        constructor
        · intro hbad
          rw [hbadeq] at hbad
          rw [processLine_problem_eq _ _ _ hh]
          exact handleProblem_badShape_err ops s l hbad
        · intro hgood
          rw [hbadeq] at hgood
          obtain ⟨m, tag, vs, cs, v, c, hF, hv, hcs⟩ := problemShape_good l hgood
          obtain ⟨s2, hs2⟩ := hTp s tag v c
          refine ⟨s2, ?_⟩
          rw [processLine_problem_eq _ _ _ hh]
          unfold handleProblem
          rw [hF]
          simp only []
          rw [hv]
          simp only []
          rw [hcs]
          simp only []
          exact hs2
      · have hbadeq : lineSyntaxBadB l = badClauseTokensB (Fields (TrimSpace l)) := by
          unfold lineSyntaxBadB
          rw [hh]
          simp [hc, hp]
        constructor
        · intro hbad
          rw [hbadeq] at hbad
          rw [processLine_clause_eq _ _ _ ch hh hc hp]
          unfold handleClause
          have := (scanLits_badTokens (TrimSpace l) (Fields (TrimSpace l)) []).1 hbad
          obtain ⟨e, he⟩ := isOkB_false_elim _ this
          rw [he]
          rfl
        · intro hgood
          rw [hbadeq] at hgood
          obtain ⟨res, hres⟩ :=
            (scanLits_badTokens (TrimSpace l) (Fields (TrimSpace l)) []).2 hgood
          obtain ⟨s2, hs2⟩ := hTc s res
          refine ⟨s2, ?_⟩
          rw [processLine_clause_eq _ _ _ ch hh hc hp]
          unfold handleClause
          rw [hres]
          simp only []
          exact hs2

theorem runLines_total (ops : Builder σ) (hT : TotalBuilder ops) :
    ∀ (lines : List String) (s : σ),
      ((∀ l ∈ lines, lineSyntaxBadB l = false) →
        ∃ s2, runLines ops s lines = .ok s2) ∧
      ((∃ l ∈ lines, lineSyntaxBadB l = true) →
        isOkB (runLines ops s lines) = false) := by
  intro lines
  induction lines with
  | nil =>
    intro s
    constructor
    · intro _
      exact ⟨s, rfl⟩
    · rintro ⟨l, hl, -⟩
      cases hl
  | cons l rest ih =>
    intro s
    constructor
    · intro hgood
      have hl := hgood l (List.mem_cons_self l rest)
      obtain ⟨s2, hs2⟩ := (processLine_total ops hT s l).2 hl
      simp only [runLines]
      rw [hs2]
      exact (ih s2).1 fun x hx => hgood x (List.mem_cons_of_mem l hx)
    · rintro ⟨x, hx, hbad⟩
      rcases List.mem_cons.mp hx with rfl | hx2
      · obtain ⟨e, he⟩ := isOkB_false_elim _ ((processLine_total ops hT s x).1 hbad)
        simp only [runLines]
        rw [he]
        rfl
      · simp only [runLines]
        cases hs : processLine ops s l with
        | error e => rfl
        | ok s2 =>
          simp only []
          exact (ih s2).2 ⟨x, hx2, hbad⟩

/-- C9: for a consumer whose operations never fail, `ReadBuilder`
succeeds exactly when the stream does not fail and every line is free of
the scanner's syntactic errors (malformed problem-line shape or counts,
non-integer clause token, or a 0 token before the final token); in
particular duplicate problem lines, clauses before the problem line,
non-`cnf` tags, and clause-count mismatches cause no scanner error. -/
theorem C9_scanner_only_syntactic :
    ∀ (σ : Type) (ops : Builder σ), TotalBuilder ops →
      ∀ (s : σ) (lines : List String) (err : Option String),
        isOkB (ReadBuilder ops s lines err) = true ↔
          (err = none ∧ ∀ l ∈ lines, lineSyntaxBadB l = false) := by
  intro σ ops hT s lines err
  constructor
  · intro hok
    obtain ⟨s2, hs2⟩ := isOkB_true_elim _ hok
    obtain ⟨hrun, rfl⟩ := ReadBuilder_ok_inv _ _ _ _ _ hs2
    refine ⟨rfl, ?_⟩
    intro l hl
    by_contra hbad
    rw [Bool.not_eq_false] at hbad
    have hfail := (runLines_total ops hT lines s).2 ⟨l, hl, hbad⟩
    rw [hrun] at hfail
    cases hfail
  · rintro ⟨rfl, hgood⟩
    obtain ⟨s2, hs2⟩ := (runLines_total ops hT lines s).1 hgood
    unfold ReadBuilder
    rw [hs2]
    rfl

theorem C9_witness :
    isOkB (ReadBuilder trivialBuilder ()
      ["1 2 0", "p foo 3 4", "p cnf 2 9", "p cnf 1 1", "5 0"] none) = true :=
  (C9_scanner_only_syntactic Unit trivialBuilder
    ⟨fun _ _ _ _ => ⟨(), rfl⟩, fun _ _ => ⟨(), rfl⟩, fun _ _ => ⟨(), rfl⟩⟩
    () ["1 2 0", "p foo 3 4", "p cnf 2 9", "p cnf 1 1", "5 0"] none).mpr
    ⟨rfl, by decide⟩

/-- C3: evaluation of the code on trailing content after a problem line
and all of its declared clauses.  The bare success-case input parses
without error (first conjunct), but appending the legacy end-of-instance
marker — a `%` line, a `0` line — and a final comment line makes
`ReadCNF` fail: the `%` line falls into the clause-line branch, whose
literal parser rejects `%` as a non-integer token (second conjunct).
This contradicts the claim (and the `validCNF_endOfFile` input of the
repository's own test suite, which expects this input to parse to the
same formula without error): trailing marker lines are not ignored. -/
theorem C3_trailing_content_not_ignored :
    ReadCNF baseLines none = (baseFormula, none) ∧
    ReadCNF (baseLines ++ ["%", "0", "c comment"]) none =
      (⟨0, []⟩, some ("invalid literal in clause " ++ quoted "%" ++ ": " ++
        "strconv.Atoi: parsing " ++ quoted "%" ++ ": invalid syntax")) := by
  constructor
  · decide
  · decide

-- Sanity checks against the Go tests (success and failure cases).
example :
    ReadCNF ["p cnf 3 4 ", "1 2 3 0", "1 -2 3 0", "1 -3 0", "-2 -3 0"] none =
      (⟨3, [[1, 2, 3], [1, -2, 3], [1, -3], [-2, -3]]⟩, none) := by decide

example : (ReadCNF [] none).2 = some "missing problem line found" := by decide

example : (ReadCNF ["p cnf 3 2", "1 2 3 0"] none).2.isSome = true := by decide

example : (ReadCNF ["p cnf 3 1", "1 0 3 0"] none).2.isSome = true := by decide

example : (ReadCNF ["p foo 3 4"] none).2.isSome = true := by decide

example : (ReadCNF ["p cnf 3 4", "p cnf 3 4"] none).2.isSome = true := by decide

example : (ReadCNF ["1 2 3 0", "p cnf 3 4"] none).2.isSome = true := by decide

end Dimacs
